import Mathlib

set_option linter.unusedSectionVars false

/-!
Verification of the two in-memory primitives of `dcyfr-ai-graphql`:

* the batching/caching data loader (`src/dataloaders/loader.ts`,
  `createDataLoader`), and
* the fixed-window rate limiter (`src/middleware/rate-limit.ts`,
  `RateLimiter`).

Both are shallowly embedded as pure state machines.  JavaScript `Map`s are
modelled as association lists with an overwrite-on-insert operation,
timestamps (`Date.now()`) as explicit `Nat` parameters, and promises as
entries of an explicit promise table whose states are
pending / resolved / rejected.
-/

/-! ## Association-list maps (model of JavaScript `Map`) -/

section AList

variable {κ α : Type} [DecidableEq κ]

/-- `Map.get`: first binding of the key, if any. -/
def lookupA : List (κ × α) → κ → Option α
  | [], _ => none
  | (k, v) :: rest, k2 => if k2 = k then some v else lookupA rest k2

/-- `Map.delete`: remove every binding of the key. -/
def eraseA : List (κ × α) → κ → List (κ × α)
  | [], _ => []
  | (k1, v) :: rest, k =>
    if k1 = k then eraseA rest k else (k1, v) :: eraseA rest k

/-- `Map.set`: overwrite the binding of the key. -/
def insertA (m : List (κ × α)) (k : κ) (v : α) : List (κ × α) :=
  (k, v) :: eraseA m k

end AList

/-! ## RateLimiter (`src/middleware/rate-limit.ts`)

```ts
export class RateLimiter {
  private entries = new Map<string, RateLimitEntry>();
  private config: RateLimitConfig;
  ...
}
```

The mutable `entries` map becomes an explicit state value threaded through
the operations; `Date.now()` becomes the explicit argument `now`.  Counts
and timestamps are `Nat`; `Math.max(0, a - b)` over these non-negative
quantities is exactly `Nat` truncated subtraction `a - b`.
-/

namespace RateLimit

structure RateLimitConfig where
  windowMs : Nat
  maxRequests : Nat
deriving DecidableEq

structure RateLimitEntry where
  count : Nat
  resetAt : Nat
deriving DecidableEq

/-- The limiter's `entries` map: identity string ↦ window. -/
abbrev Entries := List (String × RateLimitEntry)

/-- `RateLimiter.check(key)`, with `Date.now()` passed as `now`.
Returns the boolean decision together with the updated `entries` map.

```ts
check(key: string): boolean {
  const now = Date.now();
  const entry = this.entries.get(key);
  if (!entry || now > entry.resetAt) {
    this.entries.set(key, { count: 1, resetAt: now + this.config.windowMs });
    return true;
  }
  if (entry.count >= this.config.maxRequests) {
    return false;
  }
  entry.count++;
  return true;
}
``` -/
def check (cfg : RateLimitConfig) (es : Entries) (key : String) (now : Nat) :
    Bool × Entries :=
  match lookupA es key with
  | none => (true, insertA es key ⟨1, now + cfg.windowMs⟩)
  | some entry =>
    if entry.resetAt < now then
      (true, insertA es key ⟨1, now + cfg.windowMs⟩)
    else if entry.count ≥ cfg.maxRequests then
      (false, es)
    else
      (true, insertA es key ⟨entry.count + 1, entry.resetAt⟩)

/-- `RateLimiter.remaining(key)`.  `Math.max(0, maxRequests - count)` is
`Nat` truncated subtraction.

```ts
remaining(key: string): number {
  const now = Date.now();
  const entry = this.entries.get(key);
  if (!entry || now > entry.resetAt) return this.config.maxRequests;
  return Math.max(0, this.config.maxRequests - entry.count);
}
``` -/
def remaining (cfg : RateLimitConfig) (es : Entries) (key : String) (now : Nat) :
    Nat :=
  match lookupA es key with
  | none => cfg.maxRequests
  | some entry =>
    if entry.resetAt < now then cfg.maxRequests
    else cfg.maxRequests - entry.count

/-- `RateLimiter.cleanup()`: delete every window with `now > resetAt`.

```ts
cleanup(): void {
  const now = Date.now();
  for (const [key, entry] of this.entries) {
    if (now > entry.resetAt) this.entries.delete(key);
  }
}
``` -/
def cleanup (es : Entries) (now : Nat) : Entries :=
  es.filter (fun kv => !(decide (kv.2.resetAt < now)))

/-- States of one limiter instance reachable from construction
(`entries` starts empty); `check` and `cleanup` are the only operations
that touch `entries` (`remaining` is a pure read). -/
inductive Reachable (cfg : RateLimitConfig) : Entries → Prop
  | init : Reachable cfg []
  | step_check (es : Entries) (key : String) (now : Nat) :
      Reachable cfg es → Reachable cfg (check cfg es key now).2
  | step_cleanup (es : Entries) (now : Nat) :
      Reachable cfg es → Reachable cfg (cleanup es now)

end RateLimit

/-! ## Batching loader (`src/dataloaders/loader.ts`, `createDataLoader`)

```ts
export function createDataLoader<K, V>(
  batchFn: (keys: K[]) => Promise<(V | Error)[]>
): DataLoader<K, V> {
  const cache = new Map<string, Promise<V>>();
  let batch: { key: K; resolve: (v: V) => void; reject: (e: Error) => void }[] = [];
  let scheduled = false;
  ...
}
```

Embedding choices:

* Promises are identifiers (`Nat`) into an explicit promise table whose
  entries are `pending` / `resolved` / `rejected`.  Settling is
  first-settle-wins, as for JavaScript promises: `resolve`/`reject` on a
  non-pending promise is a no-op.
* The cache keys are `JSON.stringify(key)`; serialization is modelled as
  decidable equality on `K` (stringification is injective on the key
  domain used by the resolvers: scalar ids).
* `resolved` carries an `Option V`: `resolved none` models resolving with
  `undefined`, which happens when the batch function's result list is
  shorter than the key list (`results[i]` out of range is `undefined`,
  which is not an `instanceof Error`).
* The batch function is a pure function `List K → Except E (List (V ⊕ E))`:
  `Except.error` models the returned promise rejecting as a whole, and a
  `Sum.inr` element models an `Error` element in the result list.
* The body of the `queueMicrotask` callback in `schedule` becomes
  `dispatch`: it clears the flag, swaps out the batch, invokes the batch
  function on the batched keys in order, and settles each batched promise.
-/

namespace Loader

/-- State of one JavaScript promise handed out by `load`. -/
inductive PromiseState (V E : Type) where
  | pending
  | resolved (v : Option V)
  | rejected (e : E)
deriving DecidableEq

/-- One element of the `batch` array: the key together with the promise it
must settle (its `resolve`/`reject` pair). -/
structure BatchItem (K : Type) where
  key : K
  pid : Nat
deriving DecidableEq

/-- The closure state of one `createDataLoader` instance, plus the promise
table and a fresh-id counter. -/
structure LoaderState (K V E : Type) where
  cache : List (K × Nat)
  batch : List (BatchItem K)
  scheduled : Bool
  promises : List (Nat × PromiseState V E)
  nextId : Nat
deriving DecidableEq

variable {K V E : Type} [DecidableEq K]

/-- The state of a freshly created loader: empty cache, empty batch,
nothing scheduled. -/
def initLoader (K V E : Type) : LoaderState K V E :=
  { cache := [], batch := [], scheduled := false, promises := [], nextId := 0 }

/-- `load(key)`: return the cached promise if present; otherwise create a
fresh pending promise, push it onto the batch, request a dispatch
(`schedule()` sets the flag; if it was already set this is a no-op), and
cache the promise.

```ts
load(key: K): Promise<V> {
  const cacheKey = JSON.stringify(key);
  const cached = cache.get(cacheKey);
  if (cached) return cached;
  const promise = new Promise<V>((resolve, reject) => {
    batch.push({ key, resolve, reject });
    schedule();
  });
  cache.set(cacheKey, promise);
  return promise;
}
``` -/
def load (key : K) (s : LoaderState K V E) : Nat × LoaderState K V E :=
  match lookupA s.cache key with
  | some p => (p, s)
  | none =>
    let p := s.nextId
    (p, { cache := insertA s.cache key p,
          batch := s.batch ++ [⟨key, p⟩],
          scheduled := true,
          promises := insertA s.promises p .pending,
          nextId := p + 1 })

/-- `resolve(v)` of a promise: settle it if still pending, else no-op. -/
def resolveP (m : List (Nat × PromiseState V E)) (p : Nat) (v : Option V) :
    List (Nat × PromiseState V E) :=
  match lookupA m p with
  | some .pending => insertA m p (.resolved v)
  | _ => m

/-- `reject(e)` of a promise: settle it if still pending, else no-op. -/
def rejectP (m : List (Nat × PromiseState V E)) (p : Nat) (e : E) :
    List (Nat × PromiseState V E) :=
  match lookupA m p with
  | some .pending => insertA m p (.rejected e)
  | _ => m

/-- One iteration of the success loop of the dispatch callback:
`results[i] instanceof Error ? reject(results[i]) : resolve(results[i])`,
where an out-of-range index yields `undefined` and hence a resolve. -/
def settleOne (m : List (Nat × PromiseState V E)) (p : Nat)
    (r : Option (V ⊕ E)) : List (Nat × PromiseState V E) :=
  match r with
  | some (Sum.inr e) => rejectP m p e
  | some (Sum.inl v) => resolveP m p (some v)
  | none => resolveP m p none

/-- The success loop: `for (let i = 0; i < currentBatch.length; i++)`,
settling `currentBatch[i]` with `results[i]`. -/
def settleOk : List (BatchItem K) → List (V ⊕ E) →
    List (Nat × PromiseState V E) → List (Nat × PromiseState V E)
  | [], _, m => m
  | it :: its, [], m => settleOk its [] (settleOne m it.pid none)
  | it :: its, r :: rs, m => settleOk its rs (settleOne m it.pid (some r))

/-- The catch branch: reject every batched promise with the batch error. -/
def settleErr (err : E) : List (BatchItem K) →
    List (Nat × PromiseState V E) → List (Nat × PromiseState V E)
  | [], m => m
  | it :: its, m => settleErr err its (rejectP m it.pid err)

/-- The body of the microtask queued by `schedule()`: clear the flag, take
the current batch, call `batchFn` once with the batched keys in order, and
settle each batched promise from the outcome.

```ts
queueMicrotask(async () => {
  scheduled = false;
  const currentBatch = batch;
  batch = [];
  const keys = currentBatch.map((item) => item.key);
  try {
    const results = await batchFn(keys);
    for (let i = 0; i < currentBatch.length; i++) {
      const result = results[i];
      if (result instanceof Error) currentBatch[i]!.reject(result);
      else currentBatch[i]!.resolve(result as V);
    }
  } catch (error) {
    for (const item of currentBatch) {
      item.reject(error instanceof Error ? error : new Error(String(error)));
    }
  }
});
``` -/
def dispatch (batchFn : List K → Except E (List (V ⊕ E)))
    (s : LoaderState K V E) : LoaderState K V E :=
  { s with
    scheduled := false
    batch := []
    promises :=
      match batchFn (s.batch.map (·.key)) with
      | .ok results => settleOk s.batch results s.promises
      | .error e => settleErr e s.batch s.promises }

/-- `clear(key)`: drop the cached promise for one key.

```ts
clear(key: K): void { cache.delete(JSON.stringify(key)); }
``` -/
def clear (key : K) (s : LoaderState K V E) : LoaderState K V E :=
  { s with cache := eraseA s.cache key }

/-- `clearAll()`: drop the whole cache.

```ts
clearAll(): void { cache.clear(); }
``` -/
def clearAll (s : LoaderState K V E) : LoaderState K V E :=
  { s with cache := [] }

/-- A sequence of `load` calls, returning the promises handed to the
callers in order, together with the final state. -/
def loadAll : List K → LoaderState K V E → List Nat × LoaderState K V E
  | [], s => ([], s)
  | k :: ks, s =>
    let r := load k s
    let rs := loadAll ks r.2
    (r.1 :: rs.1, rs.2)

/-- Occurrences of a key in a list of keys. -/
def countKey (k : K) (l : List K) : Nat :=
  (l.filter (fun x => decide (x = k))).length

/-- The settled state a batch position receives in the success loop. -/
def settledVal (r : Option (V ⊕ E)) : PromiseState V E :=
  match r with
  | some (Sum.inr e) => .rejected e
  | some (Sum.inl v) => .resolved (some v)
  | none => .resolved none

/-- Example loader state for the witnesses: `k = 1` cached to promise 0,
which has already been rejected with error 7; batch empty. -/
def exRejectedState : LoaderState Nat Nat Nat :=
  { cache := [(1, 0)], batch := [], scheduled := false,
    promises := [(0, .rejected 7)], nextId := 1 }

/-- Example batch function failing as a whole (for the witnesses). -/
def exFailFn : List Nat → Except Nat (List (Nat ⊕ Nat)) :=
  fun _ => Except.error 5

/-- Example loader state for the witnesses: keys 1, 2, 3 loaded once each
into a fresh loader; `V = Option Nat` so that a JSON `null` result is the
value `none`. -/
def exBatch3 : LoaderState Nat (Option Nat) Nat :=
  (loadAll [1, 2, 3] (initLoader Nat (Option Nat) Nat)).2

/-- Example successful batch function: value for key 1, error marker for
key 2, `null` (a valid non-error result) for key 3. -/
def exOkFn : List Nat → Except Nat (List (Option Nat ⊕ Nat)) :=
  fun _ => Except.ok [Sum.inl (some 10), Sum.inr 99, Sum.inl none]

/-- Example batch function failing as a whole against `exBatch3`. -/
def exErrFn : List Nat → Except Nat (List (Option Nat ⊕ Nat)) :=
  fun _ => Except.error 7

/-- Example loader state for the C9 witness: `k = 1` cached to promise 0,
already resolved; clearing and re-loading key 1 must produce the fresh
promise 1. -/
def exResolvedState : LoaderState Nat Nat Nat :=
  { cache := [(1, 0)], batch := [], scheduled := false,
    promises := [(0, .resolved (some 5))], nextId := 1 }

end Loader

section AList

variable {κ α : Type} [DecidableEq κ]

@[simp] theorem lookupA_nil (k : κ) : lookupA ([] : List (κ × α)) k = none := rfl

@[simp] theorem lookupA_cons (k k2 : κ) (v : α) (m : List (κ × α)) :
    lookupA ((k, v) :: m) k2 = if k2 = k then some v else lookupA m k2 := rfl

theorem mem_eraseA {m : List (κ × α)} {k : κ} {kv : κ × α}
    (h : kv ∈ eraseA m k) : kv ∈ m := by
  induction m with
  | nil => simp [eraseA] at h
  | cons hd rest ih =>
    obtain ⟨k1, v⟩ := hd
    by_cases h1 : k1 = k
    · simp only [eraseA, if_pos h1] at h
      exact List.mem_cons_of_mem _ (ih h)
    · simp only [eraseA, if_neg h1] at h
      rcases List.mem_cons.mp h with h | h
      · exact h ▸ List.mem_cons_self _ _
      · exact List.mem_cons_of_mem _ (ih h)

@[simp] theorem lookupA_eraseA (m : List (κ × α)) (k k2 : κ) :
    lookupA (eraseA m k) k2 = if k2 = k then none else lookupA m k2 := by
  induction m with
  | nil => simp [eraseA]
  | cons kv rest ih =>
    obtain ⟨k1, v⟩ := kv
    by_cases h1 : k1 = k
    · subst h1
      by_cases h2 : k2 = k1
      · subst h2; simp [eraseA, ih]
      · simp [eraseA, h2, ih]
    · by_cases h2 : k2 = k1
      · subst h2
        simp [eraseA, h1, ih]
      · simp [eraseA, h1, h2, ih]

@[simp] theorem lookupA_insertA (m : List (κ × α)) (k k2 : κ) (v : α) :
    lookupA (insertA m k v) k2 = if k2 = k then some v else lookupA m k2 := by
  by_cases h : k2 = k <;> simp [insertA, h]

theorem lookupA_mem {m : List (κ × α)} {k : κ} {v : α}
    (h : lookupA m k = some v) : (k, v) ∈ m := by
  induction m with
  | nil => simp [lookupA] at h
  | cons kv rest ih =>
    obtain ⟨k1, v1⟩ := kv
    by_cases h1 : k = k1
    · subst h1; simp [lookupA] at h; subst h; exact List.mem_cons_self _ _
    · simp [lookupA, h1] at h
      exact List.mem_cons_of_mem _ (ih h)

end AList

namespace RateLimit

/-- `check` when no window exists: a fresh window with count 1. -/
theorem check_of_none {cfg : RateLimitConfig} {es : Entries} {key : String}
    {now : Nat} (h : lookupA es key = none) :
    check cfg es key now = (true, insertA es key ⟨1, now + cfg.windowMs⟩) := by
  unfold check; rw [h]

/-- `check` when the existing window has expired: a fresh window with count 1. -/
theorem check_of_expired {cfg : RateLimitConfig} {es : Entries} {key : String}
    {now : Nat} {entry : RateLimitEntry} (h : lookupA es key = some entry)
    (hexp : entry.resetAt < now) :
    check cfg es key now = (true, insertA es key ⟨1, now + cfg.windowMs⟩) := by
  unfold check; rw [h]; simp [hexp]

/-- `check` on an active window below the quota: increment and admit. -/
theorem check_of_active {cfg : RateLimitConfig} {es : Entries} {key : String}
    {now : Nat} {entry : RateLimitEntry} (h : lookupA es key = some entry)
    (hexp : now ≤ entry.resetAt) (hlt : entry.count < cfg.maxRequests) :
    check cfg es key now =
      (true, insertA es key ⟨entry.count + 1, entry.resetAt⟩) := by
  unfold check; rw [h]
  simp [Nat.not_lt.mpr hexp, Nat.not_le.mpr hlt]

/-- `check` on an active window at the quota: deny and leave the state as is. -/
theorem check_of_full {cfg : RateLimitConfig} {es : Entries} {key : String}
    {now : Nat} {entry : RateLimitEntry} (h : lookupA es key = some entry)
    (hexp : now ≤ entry.resetAt) (hge : cfg.maxRequests ≤ entry.count) :
    check cfg es key now = (false, es) := by
  unfold check; rw [h]
  simp [Nat.not_lt.mpr hexp, hge]

theorem reachable_count_le (cfg : RateLimitConfig) (hmax : 1 ≤ cfg.maxRequests)
    {es : Entries} (h : Reachable cfg es) :
    ∀ kv ∈ es, kv.2.count ≤ cfg.maxRequests := by
  induction h with
  | init => intro kv hkv; simp at hkv
  | step_check es key now _ ih =>
    intro kv hkv
    rcases hlk : lookupA es key with _ | entry
    · rw [check_of_none hlk] at hkv
      rcases List.mem_cons.mp hkv with hkv | hkv
      · subst hkv; simpa using hmax
      · exact ih kv (mem_eraseA hkv)
    · by_cases hexp : entry.resetAt < now
      · rw [check_of_expired hlk hexp] at hkv
        rcases List.mem_cons.mp hkv with hkv | hkv
        · subst hkv; simpa using hmax
        · exact ih kv (mem_eraseA hkv)
      · by_cases hfull : cfg.maxRequests ≤ entry.count
        · rw [check_of_full hlk (Nat.not_lt.mp hexp) hfull] at hkv
          exact ih kv hkv
        · rw [check_of_active hlk (Nat.not_lt.mp hexp) (Nat.not_le.mp hfull)]
            at hkv
          rcases List.mem_cons.mp hkv with hkv | hkv
          · subst hkv
            simpa using Nat.not_le.mp hfull
          · exact ih kv (mem_eraseA hkv)
  | step_cleanup es now _ ih =>
    intro kv hkv
    exact ih kv (List.mem_of_mem_filter hkv)

/-- C3: `check(identity)` starts a new window `{count: 1, resetAt: now +
windowMs}` and returns `true` when no window exists or the existing
window's `resetAt` has passed (after expiry the count restarts at 1 and
never carries over the prior cycle's count); otherwise, if `count <
maxRequests` it increments the count and returns `true`; otherwise it
returns `false` and leaves the entries — in particular the count —
unchanged. -/
theorem c3_check_behavior (cfg : RateLimitConfig) (es : Entries)
    (key : String) (now : Nat) :
    (lookupA es key = none →
      check cfg es key now = (true, insertA es key ⟨1, now + cfg.windowMs⟩)) ∧
    (∀ entry, lookupA es key = some entry → entry.resetAt < now →
      check cfg es key now = (true, insertA es key ⟨1, now + cfg.windowMs⟩)) ∧
    (∀ entry, lookupA es key = some entry → now ≤ entry.resetAt →
      entry.count < cfg.maxRequests →
      check cfg es key now =
        (true, insertA es key ⟨entry.count + 1, entry.resetAt⟩)) ∧
    (∀ entry, lookupA es key = some entry → now ≤ entry.resetAt →
      cfg.maxRequests ≤ entry.count →
      check cfg es key now = (false, es)) :=
  ⟨fun h => check_of_none h,
   fun _ h hexp => check_of_expired h hexp,
   fun _ h hact hlt => check_of_active h hact hlt,
   fun _ h hact hge => check_of_full h hact hge⟩

theorem c3_check_behavior_witness :
    (check ⟨60000, 3⟩ [] "ip1" 0 =
      (true, insertA ([] : Entries) "ip1" ⟨1, 60000⟩)) ∧
    (check ⟨60000, 3⟩ [("ip1", ⟨1, 70⟩)] "ip1" 100 =
      (true, insertA [("ip1", ⟨1, 70⟩)] "ip1" ⟨1, 60100⟩)) ∧
    (check ⟨60000, 3⟩ [("ip1", ⟨1, 60000⟩)] "ip1" 100 =
      (true, insertA [("ip1", ⟨1, 60000⟩)] "ip1" ⟨2, 60000⟩)) ∧
    (check ⟨60000, 3⟩ [("ip1", ⟨3, 60000⟩)] "ip1" 100 =
      (false, [("ip1", ⟨3, 60000⟩)])) :=
  ⟨(c3_check_behavior ⟨60000, 3⟩ [] "ip1" 0).1 (by decide),
   (c3_check_behavior ⟨60000, 3⟩ [("ip1", ⟨1, 70⟩)] "ip1" 100).2.1
     ⟨1, 70⟩ (by decide) (by decide),
   (c3_check_behavior ⟨60000, 3⟩ [("ip1", ⟨1, 60000⟩)] "ip1" 100).2.2.1
     ⟨1, 60000⟩ (by decide) (by decide) (by decide),
   (c3_check_behavior ⟨60000, 3⟩ [("ip1", ⟨3, 60000⟩)] "ip1" 100).2.2.2
     ⟨3, 60000⟩ (by decide) (by decide) (by decide)⟩

/-- C6 fails as stated: nothing stops a configuration with
`maxRequests = 0`, and the fresh-window branch of `check` always writes
`count = 1`.  With `cfg = {windowMs: 5, maxRequests: 0}` one `check("a")`
at time 0 reaches a state whose window for `"a"` is active at time 0
(`0 ≤ resetAt = 5`) with `count = 1 > maxRequests = 0`. -/
theorem c6_counterexample :
    Reachable ⟨5, 0⟩ [("a", ⟨1, 5⟩)] ∧
    lookupA ([("a", ⟨1, 5⟩)] : Entries) "a" = some (⟨1, 5⟩ : RateLimitEntry) ∧
    (0 : Nat) ≤ (5 : Nat) ∧
    ¬ ((1 : Nat) ≤ (0 : Nat)) := by
  have h0 : Reachable (⟨5, 0⟩ : RateLimitConfig) [] := Reachable.init
  have h1 := Reachable.step_check [] "a" 0 h0
  have he : (check (⟨5, 0⟩ : RateLimitConfig) [] "a" 0).2 =
      [("a", ⟨1, 5⟩)] := by decide
  exact ⟨he ▸ h1, by decide, by decide, by decide⟩

/-- C6 (amended): provided the configured `maxRequests` is at least 1, in
every reachable limiter state, for every active, non-expired window
(`now ≤ resetAt`), the count never exceeds `maxRequests`. -/
theorem c6_amended_count_le (cfg : RateLimitConfig)
    (hmax : 1 ≤ cfg.maxRequests) (es : Entries) (h : Reachable cfg es)
    (key : String) (entry : RateLimitEntry)
    (hlk : lookupA es key = some entry) (now : Nat)
    (_hact : now ≤ entry.resetAt) :
    entry.count ≤ cfg.maxRequests :=
  reachable_count_le cfg hmax h _ (lookupA_mem hlk)

theorem c6_amended_count_le_witness :
    Reachable ⟨5, 3⟩ [("a", ⟨1, 5⟩)] ∧
    RateLimitEntry.count ⟨1, 5⟩ ≤ RateLimitConfig.maxRequests ⟨5, 3⟩ := by
  have h0 : Reachable (⟨5, 3⟩ : RateLimitConfig) [] := Reachable.init
  have h1 := Reachable.step_check [] "a" 0 h0
  have he : (check (⟨5, 3⟩ : RateLimitConfig) [] "a" 0).2 =
      [("a", ⟨1, 5⟩)] := by decide
  refine ⟨he ▸ h1, ?_⟩
  exact c6_amended_count_le ⟨5, 3⟩ (by decide) [("a", ⟨1, 5⟩)] (he ▸ h1)
    "a" ⟨1, 5⟩ (by decide) 0 (by decide)

/-- C7: `remaining(identity)` is a pure read (in this embedding it takes
the entries map and returns a number, never an updated map, mirroring the
source which only calls `entries.get`): it returns `maxRequests` when no
window exists or the window has expired, and otherwise `maxRequests -
count` (clamped at 0 as in the source's `Math.max`); for a fresh identity
it equals `maxRequests`, and after one `check` from a window-less state it
equals `maxRequests - 1`. -/
theorem c7_remaining_behavior (cfg : RateLimitConfig) (es : Entries)
    (key : String) (now : Nat) :
    (lookupA es key = none → remaining cfg es key now = cfg.maxRequests) ∧
    (∀ entry, lookupA es key = some entry → entry.resetAt < now →
      remaining cfg es key now = cfg.maxRequests) ∧
    (∀ entry, lookupA es key = some entry → now ≤ entry.resetAt →
      remaining cfg es key now = cfg.maxRequests - entry.count) ∧
    (remaining cfg [] key now = cfg.maxRequests) ∧
    (lookupA es key = none →
      remaining cfg (check cfg es key now).2 key now =
        cfg.maxRequests - 1) := by
  refine ⟨?_, ?_, ?_, ?_, ?_⟩
  · intro h; unfold remaining; rw [h]
  · intro entry h hexp; unfold remaining; rw [h]; simp [hexp]
  · intro entry h hact; unfold remaining; rw [h]
    simp [Nat.not_lt.mpr hact]
  · unfold remaining; rfl
  · intro h
    rw [check_of_none h]
    unfold remaining
    simp [Nat.not_lt.mpr (Nat.le_add_right now cfg.windowMs)]

theorem c7_remaining_behavior_witness :
    (remaining ⟨60000, 3⟩ [] "fresh" 0 = 3) ∧
    (remaining ⟨60000, 3⟩ [("a", ⟨2, 50⟩)] "a" 100 = 3) ∧
    (remaining ⟨60000, 3⟩ [("a", ⟨2, 500⟩)] "a" 100 = 1) ∧
    (remaining ⟨60000, 3⟩ (check ⟨60000, 3⟩ [] "fresh" 0).2 "fresh" 0 = 2) :=
  ⟨(c7_remaining_behavior ⟨60000, 3⟩ [] "fresh" 0).1 (by decide),
   (c7_remaining_behavior ⟨60000, 3⟩ [("a", ⟨2, 50⟩)] "a" 100).2.1
     ⟨2, 50⟩ (by decide) (by decide),
   (c7_remaining_behavior ⟨60000, 3⟩ [("a", ⟨2, 500⟩)] "a" 100).2.2.1
     ⟨2, 500⟩ (by decide) (by decide),
   (c7_remaining_behavior ⟨60000, 3⟩ [] "fresh" 0).2.2.2.2 (by decide)⟩

/-- C8: `cleanup()` removes exactly the identities whose window's
`resetAt` has passed: a binding survives `cleanup` iff it was present and
still active (`now ≤ resetAt`), with its count and resetAt untouched. -/
theorem c8_cleanup_exact (es : Entries) (now : Nat) :
    ∀ kv : String × RateLimitEntry,
      kv ∈ cleanup es now ↔ kv ∈ es ∧ now ≤ kv.2.resetAt := by
  intro kv
  simp [cleanup, List.mem_filter, Nat.not_lt]

end RateLimit

namespace Loader

variable {K V E : Type} [DecidableEq K]

@[simp] theorem countKey_nil (k : K) : countKey k ([] : List K) = 0 := rfl

@[simp] theorem countKey_cons (k x : K) (l : List K) :
    countKey k (x :: l) =
      (if x = k then 1 else 0) + countKey k l := by
  by_cases h : x = k <;> simp [countKey, h, Nat.add_comm]

@[simp] theorem countKey_append (k : K) (l1 l2 : List K) :
    countKey k (l1 ++ l2) = countKey k l1 + countKey k l2 := by
  simp [countKey, List.filter_append]

/-- A cache hit returns the cached promise and leaves the state alone. -/
theorem load_of_cached {s : LoaderState K V E} {k : K} {p : Nat}
    (h : lookupA s.cache k = some p) : load k s = (p, s) := by
  unfold load; rw [h]

/-- A cache miss returns the fresh promise id `s.nextId`. -/
theorem load_of_miss {s : LoaderState K V E} {k : K}
    (h : lookupA s.cache k = none) :
    load k s =
      (s.nextId,
       { cache := insertA s.cache k s.nextId,
         batch := s.batch ++ [⟨k, s.nextId⟩],
         scheduled := true,
         promises := insertA s.promises s.nextId .pending,
         nextId := s.nextId + 1 }) := by
  unfold load; rw [h]

/-- After `load k`, the cache maps `k` to the promise just returned. -/
theorem load_caches_self (s : LoaderState K V E) (k : K) :
    lookupA (load k s).2.cache k = some (load k s).1 := by
  rcases h : lookupA s.cache k with _ | p
  · rw [load_of_miss h]; simp
  · rw [load_of_cached h]; exact h

/-- `load` never removes or overwrites an existing cache binding. -/
theorem load_cache_monotone {s : LoaderState K V E} {k : K} {p : Nat}
    (h : lookupA s.cache k = some p) (k2 : K) :
    lookupA (load k2 s).2.cache k = some p := by
  rcases h2 : lookupA s.cache k2 with _ | q
  · rw [load_of_miss h2]
    have hne : k ≠ k2 := fun he => by rw [he, h2] at h; exact Option.noConfusion h
    simp [hne, h]
  · rw [load_of_cached h2]; exact h

/-- Neither does a whole sequence of `load`s. -/
theorem loadAll_cache_monotone {s : LoaderState K V E} {k : K} {p : Nat}
    (h : lookupA s.cache k = some p) (ks : List K) :
    lookupA (loadAll ks s).2.cache k = some p := by
  induction ks generalizing s with
  | nil => exact h
  | cons k2 ks ih =>
    simp only [loadAll]
    exact ih (load_cache_monotone h k2)

@[simp] theorem loadAll_length (ks : List K) (s : LoaderState K V E) :
    (loadAll ks s).1.length = ks.length := by
  induction ks generalizing s with
  | nil => rfl
  | cons k ks ih => simp [loadAll, ih]

/-- Every promise handed out by a sequence of `load`s is exactly the one
the final cache holds for its key. -/
theorem loadAll_result_lookup (ks : List K) (s : LoaderState K V E)
    (i : Nat) (k : K) (h : ks[i]? = some k) :
    (loadAll ks s).1[i]? = lookupA (loadAll ks s).2.cache k := by
  induction ks generalizing s i with
  | nil => simp at h
  | cons k0 ks ih =>
    cases i with
    | zero =>
      simp only [List.getElem?_cons_zero, Option.some.injEq] at h
      subst h
      simp only [loadAll, List.getElem?_cons_zero]
      exact (loadAll_cache_monotone (load_caches_self s k0) ks).symm
    | succ n =>
      simp only [List.getElem?_cons_succ] at h
      simp only [loadAll, List.getElem?_cons_succ]
      exact ih (load k0 s).2 n h

/-- Effect of a `load` sequence on the pending batch: a key contributes
exactly one batch entry iff it is loaded at least once and was not already
cached; otherwise the batch's occurrence count for it is unchanged. -/
theorem loadAll_batch_count (ks : List K) (s : LoaderState K V E) (k : K) :
    countKey k ((loadAll ks s).2.batch.map (·.key)) =
      countKey k (s.batch.map (·.key)) +
        (if k ∈ ks ∧ lookupA s.cache k = none then 1 else 0) := by
  induction ks generalizing s with
  | nil => simp [loadAll]
  | cons k0 ks ih =>
    simp only [loadAll]
    rcases h0 : lookupA s.cache k0 with _ | p
    · rw [load_of_miss h0, ih]
      by_cases hk : k = k0
      · subst hk
        simp [h0, List.mem_cons]
      · have hlk : lookupA (insertA s.cache k0 s.nextId) k =
            lookupA s.cache k := by simp [hk]
        simp only [hlk, List.map_append, List.map_cons, List.map_nil,
          countKey_append, countKey_cons, countKey_nil, List.mem_cons]
        have hk0 : ¬ (k0 = k) := fun he => hk he.symm
        rcases Decidable.em (k ∈ ks ∧ lookupA s.cache k = none) with hc | hc
        · simp [hk0, hc, Ne.symm, fun (he : k = k0) => hk he]
        · simp only [hk0, if_neg, if_false]
          have : ¬ ((k = k0 ∨ k ∈ ks) ∧ lookupA s.cache k = none) := by
            rintro ⟨hm | hm, hn⟩
            · exact hk hm
            · exact hc ⟨hm, hn⟩
          simp [hc, this]
    · rw [load_of_cached h0, ih]
      by_cases hk : k = k0
      · subst hk
        simp [h0]
      · simp [List.mem_cons, hk]

/-- C1: for any sequence of `load` calls issued before a dispatch, and any
key `k` among them, the outgoing batch (hence the key list handed to the
batch-fetch function by `dispatch`) contains exactly one occurrence of
`k`; every `load(k)` call receives the same promise; and after the
dispatch all of those callers observe the same settled outcome, since
their promises are one and the same table entry. -/
theorem c1_load_coalesces (ks : List K) (k : K) (hk : k ∈ ks) :
    countKey k ((loadAll ks (initLoader K V E)).2.batch.map (·.key)) = 1 ∧
    (∀ i j : Nat, ks[i]? = some k → ks[j]? = some k →
      (loadAll ks (initLoader K V E)).1[i]? =
        (loadAll ks (initLoader K V E)).1[j]?) ∧
    (∀ (fn : List K → Except E (List (V ⊕ E))) (i j : Nat),
      ks[i]? = some k → ks[j]? = some k →
      ((loadAll ks (initLoader K V E)).1[i]?.map
        (fun p => lookupA (dispatch fn (loadAll ks (initLoader K V E)).2).promises p)) =
      ((loadAll ks (initLoader K V E)).1[j]?.map
        (fun p => lookupA (dispatch fn (loadAll ks (initLoader K V E)).2).promises p))) := by
  refine ⟨?_, ?_, ?_⟩
  · rw [loadAll_batch_count]
    simp [initLoader, hk]
  · intro i j hi hj
    rw [loadAll_result_lookup ks _ i k hi, loadAll_result_lookup ks _ j k hj]
  · intro fn i j hi hj
    rw [loadAll_result_lookup ks _ i k hi, loadAll_result_lookup ks _ j k hj]

theorem c1_load_coalesces_witness :
    (1 ∈ ([1, 1, 2] : List Nat)) ∧
    countKey 1 ((loadAll [1, 1, 2] (initLoader Nat Nat Nat)).2.batch.map (·.key)) = 1 ∧
    (loadAll [1, 1, 2] (initLoader Nat Nat Nat)).1[0]? =
      (loadAll [1, 1, 2] (initLoader Nat Nat Nat)).1[1]? :=
  ⟨by decide,
   (c1_load_coalesces [1, 1, 2] 1 (by decide)).1,
   (c1_load_coalesces [1, 1, 2] 1 (by decide)).2.1 0 1 (by decide) (by decide)⟩

/-- `resolve` never changes a promise that is already settled. -/
theorem resolveP_keep {m : List (Nat × PromiseState V E)} {p : Nat}
    {st : PromiseState V E} (h : lookupA m p = some st)
    (hs : st ≠ .pending) (q : Nat) (v : Option V) :
    lookupA (resolveP m q v) p = some st := by
  unfold resolveP
  rcases hq : lookupA m q with _ | s0
  · exact h
  · cases s0 with
    | pending =>
      have hne : p ≠ q := by
        rintro rfl
        rw [h] at hq
        exact hs (Option.some.inj hq)
      simp [hne, h]
    | resolved v2 => exact h
    | rejected e2 => exact h

/-- `reject` never changes a promise that is already settled. -/
theorem rejectP_keep {m : List (Nat × PromiseState V E)} {p : Nat}
    {st : PromiseState V E} (h : lookupA m p = some st)
    (hs : st ≠ .pending) (q : Nat) (e : E) :
    lookupA (rejectP m q e) p = some st := by
  unfold rejectP
  rcases hq : lookupA m q with _ | s0
  · exact h
  · cases s0 with
    | pending =>
      have hne : p ≠ q := by
        rintro rfl
        rw [h] at hq
        exact hs (Option.some.inj hq)
      simp [hne, h]
    | resolved v2 => exact h
    | rejected e2 => exact h

theorem settleOne_keep {m : List (Nat × PromiseState V E)} {p : Nat}
    {st : PromiseState V E} (h : lookupA m p = some st)
    (hs : st ≠ .pending) (q : Nat) (r : Option (V ⊕ E)) :
    lookupA (settleOne m q r) p = some st := by
  rcases r with _ | r
  · exact resolveP_keep h hs q none
  · rcases r with v | e
    · exact resolveP_keep h hs q (some v)
    · exact rejectP_keep h hs q e

/-- Settling a promise other than `p` leaves `p`'s entry untouched. -/
theorem resolveP_other {m : List (Nat × PromiseState V E)} {p q : Nat}
    (hne : p ≠ q) (v : Option V) :
    lookupA (resolveP m q v) p = lookupA m p := by
  unfold resolveP
  rcases hq : lookupA m q with _ | s0
  · rfl
  · cases s0 <;> simp [hne]

theorem rejectP_other {m : List (Nat × PromiseState V E)} {p q : Nat}
    (hne : p ≠ q) (e : E) :
    lookupA (rejectP m q e) p = lookupA m p := by
  unfold rejectP
  rcases hq : lookupA m q with _ | s0
  · rfl
  · cases s0 <;> simp [hne]

theorem settleOne_other {m : List (Nat × PromiseState V E)} {p q : Nat}
    (hne : p ≠ q) (r : Option (V ⊕ E)) :
    lookupA (settleOne m q r) p = lookupA m p := by
  rcases r with _ | r
  · exact resolveP_other hne none
  · rcases r with v | e
    · exact resolveP_other hne (some v)
    · exact rejectP_other hne e

/-- The success loop settles a pending promise with exactly the value at
its position (`undefined`, i.e. a resolve with no payload, past the end of
the result list). -/
theorem settleOne_pending {m : List (Nat × PromiseState V E)} {p : Nat}
    (h : lookupA m p = some .pending) (r : Option (V ⊕ E)) :
    lookupA (settleOne m p r) p = some (settledVal r) := by
  rcases r with _ | r
  · unfold settleOne resolveP
    rw [h]; simp [settledVal]
  · rcases r with v | e
    · unfold settleOne resolveP
      rw [h]; simp [settledVal]
    · unfold settleOne rejectP
      rw [h]; simp [settledVal]

theorem settleOk_keep {p : Nat} {st : PromiseState V E} (hs : st ≠ .pending) :
    ∀ (its : List (BatchItem K)) (rs : List (V ⊕ E))
      (m : List (Nat × PromiseState V E)), lookupA m p = some st →
      lookupA (settleOk its rs m) p = some st := by
  intro its
  induction its with
  | nil => intro rs m h; exact h
  | cons it its ih =>
    intro rs m h
    rcases rs with _ | ⟨r, rs⟩
    · exact ih [] _ (settleOne_keep h hs it.pid none)
    · exact ih rs _ (settleOne_keep h hs it.pid (some r))

theorem settleErr_keep {p : Nat} {st : PromiseState V E} (hs : st ≠ .pending)
    (err : E) :
    ∀ (its : List (BatchItem K)) (m : List (Nat × PromiseState V E)),
      lookupA m p = some st → lookupA (settleErr err its m) p = some st := by
  intro its
  induction its with
  | nil => intro m h; exact h
  | cons it its ih =>
    intro m h
    exact ih _ (rejectP_keep h hs it.pid err)

/-- A dispatch never changes a promise that is already settled. -/
theorem dispatch_keep_settled {s : LoaderState K V E} {p : Nat}
    {st : PromiseState V E} (h : lookupA s.promises p = some st)
    (hs : st ≠ .pending) (fn : List K → Except E (List (V ⊕ E))) :
    lookupA (dispatch fn s).promises p = some st := by
  unfold dispatch
  rcases hfn : fn (s.batch.map (·.key)) with e | rs <;> simp only [hfn]
  · exact settleErr_keep hs e s.batch s.promises h
  · exact settleOk_keep hs s.batch rs s.promises h

/-- The success loop does not touch promises outside its batch. -/
theorem settleOk_not_mem {p : Nat} :
    ∀ (its : List (BatchItem K)) (rs : List (V ⊕ E))
      (m : List (Nat × PromiseState V E)), p ∉ its.map (·.pid) →
      lookupA (settleOk its rs m) p = lookupA m p := by
  intro its
  induction its with
  | nil => intro rs m _; rfl
  | cons it its ih =>
    intro rs m hnm
    simp only [List.map_cons, List.mem_cons, not_or] at hnm
    rcases rs with _ | ⟨r, rs⟩ <;> simp only [settleOk]
    · rw [ih [] _ hnm.2, settleOne_other hnm.1 none]
    · rw [ih rs _ hnm.2, settleOne_other hnm.1 (some r)]

/-- Positional behaviour of the success loop: with distinct batch promises
all pending, position `i` gets exactly the settled state of `results[i]`. -/
theorem settleOk_pos :
    ∀ (its : List (BatchItem K)) (rs : List (V ⊕ E))
      (m : List (Nat × PromiseState V E)) (i : Nat) (it : BatchItem K),
      its[i]? = some it → (its.map (·.pid)).Nodup →
      (∀ it2 ∈ its, lookupA m it2.pid = some .pending) →
      lookupA (settleOk its rs m) it.pid = some (settledVal rs[i]?) := by
  intro its
  induction its with
  | nil => intro rs m i it hit _ _; simp at hit
  | cons it0 its ih =>
    intro rs m i it hit hnd hpend
    simp only [List.map_cons, List.nodup_cons] at hnd
    have hpend0 : lookupA m it0.pid = some .pending :=
      hpend it0 (List.mem_cons_self _ _)
    cases i with
    | zero =>
      simp only [List.getElem?_cons_zero, Option.some.injEq] at hit
      subst hit
      rcases rs with _ | ⟨r, rs⟩ <;> simp only [settleOk]
      · rw [settleOk_not_mem its [] _ hnd.1]
        simpa using settleOne_pending hpend0 none
      · rw [settleOk_not_mem its rs _ hnd.1]
        simpa using settleOne_pending hpend0 (some r)
    | succ n =>
      simp only [List.getElem?_cons_succ] at hit
      have hpend2 : ∀ (r0 : Option (V ⊕ E)) (it2 : BatchItem K),
          it2 ∈ its → lookupA (settleOne m it0.pid r0) it2.pid =
            some .pending := by
        intro r0 it2 h2
        have hne : it2.pid ≠ it0.pid := by
          intro he
          exact hnd.1 (he ▸ List.mem_map_of_mem (·.pid) h2)
        rw [settleOne_other hne r0]
        exact hpend it2 (List.mem_cons_of_mem _ h2)
      rcases rs with _ | ⟨r, rs⟩ <;> simp only [settleOk]
      · have := ih [] (settleOne m it0.pid none) n it hit hnd.2
          (hpend2 none)
        simpa using this
      · have := ih rs (settleOne m it0.pid (some r)) n it hit hnd.2
          (hpend2 (some r))
        simpa using this

/-- The catch branch rejects every batched promise with the batch error
(promises already rejected with it stay so). -/
theorem settleErr_all {err : E} :
    ∀ (its : List (BatchItem K)) (m : List (Nat × PromiseState V E)),
      (∀ it ∈ its, lookupA m it.pid = some .pending ∨
        lookupA m it.pid = some (.rejected err)) →
      ∀ it ∈ its, lookupA (settleErr err its m) it.pid =
        some (.rejected err) := by
  intro its
  induction its with
  | nil => intro m _ it hit; simp at hit
  | cons it0 its ih =>
    intro m hm it hit
    have h0 : lookupA (rejectP m it0.pid err) it0.pid =
        some (.rejected err) := by
      rcases hm it0 (List.mem_cons_self _ _) with hp | hr
      · unfold rejectP; rw [hp]; simp
      · exact rejectP_keep hr (by intro hx; cases hx) it0.pid err
    have hm2 : ∀ it2 ∈ its,
        lookupA (rejectP m it0.pid err) it2.pid = some .pending ∨
        lookupA (rejectP m it0.pid err) it2.pid = some (.rejected err) := by
      intro it2 h2
      by_cases hne : it2.pid = it0.pid
      · rw [hne]
        exact Or.inr h0
      · rw [rejectP_other hne err]
        exact hm it2 (List.mem_cons_of_mem _ h2)
    rcases List.mem_cons.mp hit with he | h2
    · subst he
      simp only [settleErr]
      exact settleErr_keep (by intro hx; cases hx) err its _ h0
    · simp only [settleErr]
      exact ih _ hm2 it h2

/-- C2: if the cache holds a promise for `k` (in particular one that has
already settled with a failure), `load(k)` returns that same promise and
leaves the whole state — including the outgoing batch — unchanged, so the
batch-fetch function gains no new occurrence of `k`; loads of other keys
keep the binding; a dispatch never touches the cache; and a settled
(rejected or resolved) promise is never changed by a dispatch.  Only
`clear`/`clearAll` remove cache entries. -/
theorem c2_settled_never_replaced (s : LoaderState K V E) (k : K) (p : Nat)
    (h : lookupA s.cache k = some p) :
    load k s = (p, s) ∧
    (∀ k2 : K, lookupA (load k2 s).2.cache k = some p) ∧
    (∀ fn : List K → Except E (List (V ⊕ E)),
      (dispatch fn s).cache = s.cache) ∧
    (∀ (err : E), lookupA s.promises p = some (.rejected err) →
      ∀ fn : List K → Except E (List (V ⊕ E)),
        lookupA (dispatch fn s).promises p = some (.rejected err)) ∧
    (∀ (v : Option V), lookupA s.promises p = some (.resolved v) →
      ∀ fn : List K → Except E (List (V ⊕ E)),
        lookupA (dispatch fn s).promises p = some (.resolved v)) := by
  refine ⟨load_of_cached h, fun k2 => load_cache_monotone h k2,
    fun fn => rfl, ?_, ?_⟩
  · intro err he fn
    exact dispatch_keep_settled he (by intro hx; cases hx) fn
  · intro v hv fn
    exact dispatch_keep_settled hv (by intro hx; cases hx) fn

/-- C4: when the batch-fetch function succeeds with a result list of the
same length as the dispatched key list, position `i`'s promise settles
from position `i`'s result alone: an error marker rejects exactly that
promise, any other value — `null` included — resolves it.  (Positions are
independent: the settled state at `i` is a function of `results[i]`
only.) -/
theorem c4_per_position_settlement (s : LoaderState K V E)
    (fn : List K → Except E (List (V ⊕ E))) (rs : List (V ⊕ E))
    (hfn : fn (s.batch.map (·.key)) = .ok rs)
    (hlen : rs.length = s.batch.length)
    (hnodup : (s.batch.map (·.pid)).Nodup)
    (hpend : ∀ it ∈ s.batch, lookupA s.promises it.pid = some .pending)
    (i : Nat) (hi : i < s.batch.length) :
    lookupA (dispatch fn s).promises (s.batch.get ⟨i, hi⟩).pid =
      some (match rs.get ⟨i, by omega⟩ with
            | Sum.inl v => PromiseState.resolved (some v)
            | Sum.inr e => PromiseState.rejected e) := by
  unfold dispatch
  simp only [hfn]
  have hit : s.batch[i]? = some (s.batch.get ⟨i, hi⟩) := by
    rw [List.getElem?_eq_getElem hi]
    simp
  have hr : rs[i]? = some (rs.get ⟨i, by omega⟩) := by
    rw [List.getElem?_eq_getElem (by omega : i < rs.length)]
    simp
  have hmain := settleOk_pos s.batch rs s.promises i _ hit hnodup hpend
  rw [hr] at hmain
  rcases hg : rs.get ⟨i, by omega⟩ with v | e <;> rw [hg] at hmain <;>
    simpa [settledVal] using hmain

/-- C5: if the batch-fetch function itself fails as a whole, every promise
in that dispatch is rejected with that same error. -/
theorem c5_batch_failure_rejects_all (s : LoaderState K V E)
    (fn : List K → Except E (List (V ⊕ E))) (err : E)
    (hfn : fn (s.batch.map (·.key)) = .error err)
    (hpend : ∀ it ∈ s.batch, lookupA s.promises it.pid = some .pending) :
    ∀ it ∈ s.batch,
      lookupA (dispatch fn s).promises it.pid = some (.rejected err) := by
  unfold dispatch
  simp only [hfn]
  exact settleErr_all s.batch s.promises
    (fun it2 h2 => Or.inl (hpend it2 h2))

/-- C9: after `clear(k)`, a `load(k)` creates a fresh pending promise
(distinct from any previously cached one), appends `k` with it to the
outgoing batch — so the scheduled dispatch will invoke the batch-fetch
function with a key list containing `k` — sets the scheduling flag, and
caches the new promise.  The freshness hypothesis (`every cached promise
id was allocated before nextId`) holds in every state built by the
loader's own operations. -/
theorem c9_clear_then_load_refetches (s : LoaderState K V E) (k : K)
    (hwf : ∀ q, lookupA s.cache k = some q → q < s.nextId) :
    (load k (clear k s)).1 = s.nextId ∧
    (load k (clear k s)).2.batch = s.batch ++ [⟨k, s.nextId⟩] ∧
    lookupA (load k (clear k s)).2.cache k = some s.nextId ∧
    lookupA (load k (clear k s)).2.promises s.nextId = some .pending ∧
    (load k (clear k s)).2.scheduled = true ∧
    k ∈ (load k (clear k s)).2.batch.map (·.key) ∧
    (∀ q, lookupA s.cache k = some q → (load k (clear k s)).1 ≠ q) := by
  have hc : lookupA (clear k s).cache k = none := by simp [clear]
  rw [load_of_miss hc]
  refine ⟨rfl, rfl, by simp [clear], by simp [clear], rfl, by simp, ?_⟩
  intro q hq
  have := hwf q hq
  simp only [clear]
  omega

/-- C10: `clear` and `clearAll` touch only the cache: the pending batch,
the scheduling flag, the promise table and the id counter are untouched,
so requests already queued are not cancelled — a dispatch after the clear
invokes the batch-fetch function with the very same key list and settles
the very same promises; `clear k` removes exactly the binding of `k` and
`clearAll` empties the cache. -/
theorem c10_clear_frame (s : LoaderState K V E) (k : K) :
    (clear k s).batch = s.batch ∧
    (clear k s).scheduled = s.scheduled ∧
    (clear k s).promises = s.promises ∧
    (clear k s).nextId = s.nextId ∧
    (clearAll s).batch = s.batch ∧
    (clearAll s).scheduled = s.scheduled ∧
    (clearAll s).promises = s.promises ∧
    (clearAll s).nextId = s.nextId ∧
    (clearAll s).cache = [] ∧
    (∀ k2 : K, lookupA (clear k s).cache k2 =
      if k2 = k then none else lookupA s.cache k2) ∧
    (∀ fn : List K → Except E (List (V ⊕ E)),
      (dispatch fn (clear k s)).promises = (dispatch fn s).promises) ∧
    (∀ fn : List K → Except E (List (V ⊕ E)),
      (dispatch fn (clearAll s)).promises = (dispatch fn s).promises) := by
  refine ⟨rfl, rfl, rfl, rfl, rfl, rfl, rfl, rfl, rfl, ?_, fun fn => rfl,
    fun fn => rfl⟩
  intro k2
  simp [clear]

theorem c2_settled_never_replaced_witness :
    lookupA exRejectedState.cache 1 = some 0 ∧
    load 1 exRejectedState = (0, exRejectedState) ∧
    lookupA (dispatch exFailFn exRejectedState).promises 0 =
      some (PromiseState.rejected 7) :=
  ⟨by decide,
   (c2_settled_never_replaced exRejectedState 1 0 (by decide)).1,
   (c2_settled_never_replaced exRejectedState 1 0 (by decide)).2.2.2.1
     7 (by decide) exFailFn⟩

theorem c4_per_position_settlement_witness :
    exOkFn (exBatch3.batch.map (·.key)) =
      Except.ok [Sum.inl (some 10), Sum.inr 99, Sum.inl none] ∧
    lookupA (dispatch exOkFn exBatch3).promises
        (exBatch3.batch.get ⟨0, by decide⟩).pid =
      some (PromiseState.resolved (some (some 10))) ∧
    lookupA (dispatch exOkFn exBatch3).promises
        (exBatch3.batch.get ⟨1, by decide⟩).pid =
      some (PromiseState.rejected 99) ∧
    lookupA (dispatch exOkFn exBatch3).promises
        (exBatch3.batch.get ⟨2, by decide⟩).pid =
      some (PromiseState.resolved (some none)) :=
  ⟨rfl,
   c4_per_position_settlement exBatch3 exOkFn
     [Sum.inl (some 10), Sum.inr 99, Sum.inl none] rfl (by decide)
     (by decide) (by decide) 0 (by decide),
   c4_per_position_settlement exBatch3 exOkFn
     [Sum.inl (some 10), Sum.inr 99, Sum.inl none] rfl (by decide)
     (by decide) (by decide) 1 (by decide),
   c4_per_position_settlement exBatch3 exOkFn
     [Sum.inl (some 10), Sum.inr 99, Sum.inl none] rfl (by decide)
     (by decide) (by decide) 2 (by decide)⟩

theorem c5_batch_failure_rejects_all_witness :
    exErrFn (exBatch3.batch.map (·.key)) = Except.error 7 ∧
    lookupA (dispatch exErrFn exBatch3).promises
        (exBatch3.batch.get ⟨0, by decide⟩).pid =
      some (PromiseState.rejected 7) ∧
    lookupA (dispatch exErrFn exBatch3).promises
        (exBatch3.batch.get ⟨2, by decide⟩).pid =
      some (PromiseState.rejected 7) :=
  ⟨rfl,
   c5_batch_failure_rejects_all exBatch3 exErrFn 7 rfl (by decide)
     (exBatch3.batch.get ⟨0, by decide⟩) (by decide),
   c5_batch_failure_rejects_all exBatch3 exErrFn 7 rfl (by decide)
     (exBatch3.batch.get ⟨2, by decide⟩) (by decide)⟩

theorem c9_clear_then_load_refetches_witness :
    (load 1 (clear 1 exResolvedState)).1 = 1 ∧
    (load 1 (clear 1 exResolvedState)).2.batch = [⟨1, 1⟩] ∧
    lookupA (load 1 (clear 1 exResolvedState)).2.promises 1 =
      some PromiseState.pending ∧
    (load 1 (clear 1 exResolvedState)).1 ≠ 0 := by
  have h := c9_clear_then_load_refetches exResolvedState 1
    (by intro q hq; simp [exResolvedState] at hq ⊢; omega)
  refine ⟨h.1, ?_, h.2.2.2.1, h.2.2.2.2.2.2 0 (by decide)⟩
  have hb := h.2.1
  simpa [exResolvedState] using hb

end Loader
